import Mathlib

/-!
Verification of the azplugins confined-flow core: the sinusoidal
bounce-back wall geometry (`SineGeometry`) and the virtual-particle
filler (`SineGeometryFillerGPU`).

The repository sources at hand are `BounceBackGeometry.cc` (the binding
layer exporting `SineGeometry`, with constructor signature
`(Scalar, Scalar, boundary)` and the accessors `getH`, `getVelocity`,
`getBoundaryCondition`) and `MPCDSineGeometryFillerGPU.cc` (the GPU
filler wrapper: the destination index `first_idx = N + NVirtual -
m_N_fill` and the launch of `gpu::slit_draw_particles` with the
autotuner's block-size parameter). The geometry mathematics (`locate`,
`reflect`), the filler base class and the draw kernel live in headers and
CUDA sources that are not part of those two files; those parts are
modelled from the specification, as marked on each definition.
-/

/-! ## Geometry data model -/

/-- Boundary-condition flag of the wall: no-slip or slip. -/
inductive BoundaryCond where
  | noSlip
  | slip
deriving DecidableEq, Repr

/-- Result of classifying a point against the channel walls. -/
inductive Location where
  | inside
  | outsideLow
  | outsideHigh
deriving DecidableEq, Repr

/-- A three-component vector of real scalars. -/
@[ext]
structure Vec3 where
  x : ℝ
  y : ℝ
  z : ℝ

/-- Modelled from the spec: the immutable `SineGeometry` value (§3 Data
Model). The class itself is declared in `BounceBackGeometry.h`, which is
not among the sources; the fields follow the spec's Data Model:
half-width, amplitude, wavenumber, wall velocity and the
boundary-condition flag. -/
structure SineGeometry where
  halfWidth : ℝ
  amplitude : ℝ
  wavenumber : ℝ
  wallVelocity : ℝ
  bc : BoundaryCond

/-- Modelled from the spec: the local wall profile
wallOffset(x) = amplitude * sin(wavenumber * x). -/
noncomputable def wallOffset (g : SineGeometry) (x : ℝ) : ℝ :=
  g.amplitude * Real.sin (g.wavenumber * x)

/-- Modelled from the spec: the derivative of the wall profile,
used for the local tangent of the corrugated surface under Slip. -/
noncomputable def wallSlope (g : SineGeometry) (x : ℝ) : ℝ :=
  g.amplitude * g.wavenumber * Real.cos (g.wavenumber * x)

/-- Modelled from the spec: point classification `locate` (§4.1).
Computes the local wall height at the particle's streamwise coordinate
and compares the transverse coordinate against wallOffset(x) ± halfWidth;
a point exactly on a boundary is treated as inside (documented
tie-break). -/
noncomputable def locate (g : SineGeometry) (r : Vec3) : Location :=
  if r.y > wallOffset g r.x + g.halfWidth then Location.outsideHigh
  else if r.y < wallOffset g r.x - g.halfWidth then Location.outsideLow
  else Location.inside

/-- Modelled from the spec: the velocity part of the wall-frame
bounce-back (§4.1). Subtract the wall velocity (carried by the streamwise
component) to work in the wall's rest frame, reverse all components under
NoSlip or only the component normal to the local tangent `(1, h'(x))`
under Slip, then add the wall velocity back. -/
noncomputable def reflectVel (g : SineGeometry) (x : ℝ) (v : Vec3) : Vec3 :=
  let u : Vec3 := ⟨v.x - g.wallVelocity, v.y, v.z⟩
  let u' : Vec3 :=
    match g.bc with
    | BoundaryCond.noSlip => ⟨-u.x, -u.y, -u.z⟩
    | BoundaryCond.slip =>
        let m := wallSlope g x
        let c := 2 * (u.y - m * u.x) / (1 + m * m)
        ⟨u.x + c * m, u.y - c, u.z⟩
  ⟨u'.x + g.wallVelocity, u'.y, u'.z⟩

/-- Modelled from the spec: the reflection operator `reflect` (§4.1).
A particle found outside a wall has its position mirrored back inside
across the crossed boundary by the overshoot amount (the overshoot
already encodes the post-crossing travel of the sub-step `dt`, which is
why `dt` does not reappear in the transverse mirror), and its velocity
transformed by the wall-frame bounce-back rule. A particle inside is
left untouched. -/
noncomputable def reflect (g : SineGeometry) (r v : Vec3) (dt : ℝ) : Vec3 × Vec3 :=
  match locate g r with
  | Location.inside => (r, v)
  | Location.outsideHigh =>
      let yw := wallOffset g r.x + g.halfWidth
      (⟨r.x, 2 * yw - r.y, r.z⟩, reflectVel g r.x v)
  | Location.outsideLow =>
      let yw := wallOffset g r.x - g.halfWidth
      (⟨r.x, 2 * yw - r.y, r.z⟩, reflectVel g r.x v)

/-- Wall-frame velocity: the particle velocity with the wall velocity
removed from the streamwise component. -/
def wallFrame (g : SineGeometry) (v : Vec3) : Vec3 :=
  ⟨v.x - g.wallVelocity, v.y, v.z⟩

/-- In-plane dot product against the unnormalized local tangent (1, m). -/
def dotTangent (m : ℝ) (u : Vec3) : ℝ := u.x + m * u.y

/-- In-plane dot product against the unnormalized local normal (-m, 1). -/
def dotNormal (m : ℝ) (u : Vec3) : ℝ := -(m * u.x) + u.y

/-! ## Filler data model -/

/-- Modelled from the spec: the per-particle independent random stream,
a pure integer hash of (randomSeed, timestep, side, particle index); the
spec fixes only that the stream is a hash of the index tuple, never a
shared generator, so a concrete 32-bit integer mix stands in. -/
def streamHash (seed timestep side i : Nat) : Nat :=
  (seed * 2654435761 + timestep * 40503 + side * 2246822519
    + i * 2654435769 + 1013904223) % 4294967296

/-- Modelled from the spec: the deterministic per-step random draw used
for the particle count, seeded from (randomSeed, timestep, side). -/
def stepHash (seed timestep side : Nat) : Nat := streamHash seed timestep side 0

/-- Modelled from the spec: the per-side particle count sampled around
the expectation `mean = targetDensity * regionVolume` from the
deterministic per-step draw. The spec's Poisson inverse-CDF is not
expressible in exact arithmetic, so a deterministic mean-preserving
stochastic rounding stands in: floor(mean) plus a Bernoulli excess
decided by the hashed draw against the fractional part. -/
def sampleCount (seed timestep side : Nat) (mean : ℚ) : Nat :=
  ⌊mean⌋.toNat
    + (if ((stepHash seed timestep side % 4096 : Nat) : ℚ) < (mean - ⌊mean⌋) * 4096
       then 1 else 0)

/-- The filler's only persistent mutable state (§3): the monotonic tag
counter. -/
structure FillerRunState where
  tagCounter : Nat

/-- Modelled from the spec: the count computed during one fill call.
It reads none of the filler's mutable run state; it is a function of the
seed, the step, the side and the configured density and volume only. -/
def stepCount (seed : Nat) (st : FillerRunState) (timestep side : Nat)
    (density volume : ℚ) : Nat :=
  sampleCount seed timestep side (density * volume)

/-- Tags handed to the `count` particles of one fill call: firstNewTag + i. -/
def tagsOf (firstTag count : Nat) : List Nat := (List.range count).map (firstTag + ·)

/-- Modelled from the spec: the (firstNewTag, count) pairs produced by a
run of fill calls starting from tag counter t0; each call fixes
firstNewTag from the monotonic counter, then advances the counter by the
number of particles created. -/
def runFirstTags (t0 : Nat) : List Nat → List (Nat × Nat)
  | [] => []
  | c :: cs => (t0, c) :: runFirstTags (t0 + c) cs

/-- All tags ever assigned over a run of fill calls. -/
def runTags (t0 : Nat) (counts : List Nat) : List Nat :=
  (runFirstTags t0 counts).flatMap (fun p => tagsOf p.1 p.2)

/-- A sequence of slot writes applied left to right to a store. -/
def applyWrites {α : Type} (ws : List (Nat × α)) (store : Nat → α) : Nat → α :=
  ws.foldl (fun s w => fun j => if j = w.1 then w.2 else s j) store

/-- Modelled from the spec: one parallel fill pass executed in the given
per-particle task order; task i writes the hashed sample of particle i
into its disjoint slot first_idx + i. -/
def runFill {α : Type} (order : List Nat) (sample : Nat → α) (first_idx : Nat)
    (store : Nat → α) : Nat → α :=
  applyWrites (order.map (fun i => (first_idx + i, sample i))) store

/-- Modelled from the spec: the task order induced by the GPU dispatch
with a given block size (the autotuner parameter passed in
MPCDSineGeometryFillerGPU.cc line 56): ceil(N / block) blocks of
block-many threads, threads beyond N masked out. -/
def gpuOrder (block_size N : Nat) : List Nat :=
  ((List.range ((N + block_size - 1) / block_size)).flatMap
    (fun blk => (List.range block_size).map (fun t => blk * block_size + t))).filter
    (fun j => decide (j < N))

/-- The host particle store as seen by the filler: a capacity and the
position, velocity and tag arrays (drawParticles acquires exactly these
three, MPCDSineGeometryFillerGPU.cc lines 33-35). -/
structure MPCDStore (π υ : Type) where
  capacity : Nat
  pos : Nat → π
  vel : Nat → υ
  tag : Nat → Nat

/-- Write one particle's position, velocity and tag at a slot. -/
def writeOne {π υ : Type} (st : MPCDStore π υ) (idx : Nat) (p : π) (v : υ) (t : Nat) :
    MPCDStore π υ :=
  { st with
    pos := fun j => if j = idx then p else st.pos j
    vel := fun j => if j = idx then v else st.vel j
    tag := fun j => if j = idx then t else st.tag j }

/-- The kernel's write loop over a list of particle indices. -/
def drawFold {π υ : Type} (samplePos : Nat → π) (sampleVel : Nat → υ)
    (first_tag first_idx : Nat) (l : List Nat) (st : MPCDStore π υ) : MPCDStore π υ :=
  l.foldl (fun s i => writeOne s (first_idx + i) (samplePos i) (sampleVel i) (first_tag + i)) st

/-- Modelled from the spec and the kernel call in
MPCDSineGeometryFillerGPU.cc lines 40-56: gpu::slit_draw_particles (whose
CUDA body is not among the sources) writes, for each new particle
i < N_fill, its sampled position and velocity and the tag
first_tag + i into slot first_idx + i. -/
def slit_draw_particles {π υ : Type} (samplePos : Nat → π) (sampleVel : Nat → υ)
    (first_tag first_idx N_fill : Nat) (st : MPCDStore π υ) : MPCDStore π υ :=
  drawFold samplePos sampleVel first_tag first_idx (List.range N_fill) st

/-- From the source (MPCDSineGeometryFillerGPU.cc line 37): the first
destination slot is first_idx = N + NVirtual - m_N_fill, and the kernel
is launched on the m_N_fill slots from there. -/
def drawParticles {π υ : Type} (samplePos : Nat → π) (sampleVel : Nat → υ)
    (N NVirtual N_fill first_tag : Nat) (st : MPCDStore π υ) : MPCDStore π υ :=
  slit_draw_particles samplePos sampleVel first_tag (N + NVirtual - N_fill) N_fill st

/-- The filler's failure taxonomy (§7): the capacity precondition. -/
inductive FillError where
  | capacity
deriving DecidableEq, Repr

/-- Modelled from the spec (§7 Capacity error): a fill call checks the
granted capacity before any write; on violation it surfaces the fatal
error and returns the store unchanged, leaving no partial fill. -/
def fill {π υ : Type} (samplePos : Nat → π) (sampleVel : Nat → υ)
    (N NVirtual N_fill first_tag : Nat) (st : MPCDStore π υ) :
    MPCDStore π υ × Option FillError :=
  if N + NVirtual ≤ st.capacity then
    (drawParticles samplePos sampleVel N NVirtual N_fill first_tag st, none)
  else (st, some FillError.capacity)

/-! ## Binding layer -/

/-- Parameter kinds appearing in the pybind signatures of the two
source files. -/
inductive PyParam where
  | scalar
  | boundary
  | uint
  | sysdata
  | variant
  | geomPtr
deriving DecidableEq, Repr

/-- From the source (BounceBackGeometry.cc line 25): the constructor the
binding exports for SineGeometry takes (Scalar, Scalar,
mpcd::detail::boundary). -/
def sineGeometryInitParams : List PyParam :=
  [PyParam.scalar, PyParam.scalar, PyParam.boundary]

/-- From the source (BounceBackGeometry.cc lines 26-28): the accessor
methods the binding exports on SineGeometry. -/
def sineGeometryMethods : List String :=
  ["getH", "getVelocity", "getBoundaryCondition"]

/-- From the source (MPCDSineGeometryFillerGPU.cc lines 71-76): the
constructor the binding exports for SineGeometryFillerGPU. -/
def fillerInitParams : List PyParam :=
  [PyParam.sysdata, PyParam.scalar, PyParam.uint, PyParam.variant,
   PyParam.uint, PyParam.geomPtr]

/-- Follows the spec's words (§3 Data Model): the five Geometry
construction fields halfWidth, amplitude, wavenumber, wallVelocity,
boundaryCondition, for comparison against the exported constructor
signature. -/
def dataModelFieldsSpec : List PyParam :=
  [PyParam.scalar, PyParam.scalar, PyParam.scalar, PyParam.scalar, PyParam.boundary]

/-! ## Geometry theorems -/

lemma locate_inside_aux (g : SineGeometry) (r : Vec3)
    (hlo : wallOffset g r.x - g.halfWidth ≤ r.y)
    (hhi : r.y ≤ wallOffset g r.x + g.halfWidth) :
    locate g r = Location.inside := by
  unfold locate
  rw [if_neg (by linarith), if_neg (by linarith)]

/-- C3: all positions whose transverse coordinate lies between the two
wall boundaries, the boundaries themselves included (the documented
tie-break), are classified Inside. -/
theorem locate_inside_of_between (g : SineGeometry) (r : Vec3)
    (hlo : wallOffset g r.x - g.halfWidth ≤ r.y)
    (hhi : r.y ≤ wallOffset g r.x + g.halfWidth) :
    locate g r = Location.inside :=
  locate_inside_aux g r hlo hhi

/-- Witness for C3: with halfWidth = 10, amplitude = 2, wavenumber = 1/10,
the point (0, 10, 0) lies exactly on the upper boundary (h(0) = 0) and is
classified Inside. -/
theorem locate_inside_of_between_witness :
    locate ⟨10, 2, 1/10, 0, BoundaryCond.noSlip⟩ ⟨0, 10, 0⟩ = Location.inside := by
  apply locate_inside_of_between
  · norm_num [wallOffset]
  · norm_num [wallOffset]

lemma locate_outsideHigh_gt {g : SineGeometry} {r : Vec3}
    (h : locate g r = Location.outsideHigh) :
    r.y > wallOffset g r.x + g.halfWidth := by
  by_contra hc
  unfold locate at h
  rw [if_neg hc] at h
  by_cases h2 : r.y < wallOffset g r.x - g.halfWidth
  · rw [if_pos h2] at h
    exact Location.noConfusion h
  · rw [if_neg h2] at h
    exact Location.noConfusion h

lemma locate_outsideLow_lt {g : SineGeometry} {r : Vec3}
    (h : locate g r = Location.outsideLow) :
    r.y < wallOffset g r.x - g.halfWidth := by
  by_contra hc
  unfold locate at h
  by_cases h1 : r.y > wallOffset g r.x + g.halfWidth
  · rw [if_pos h1] at h
    exact Location.noConfusion h
  · rw [if_neg h1, if_neg hc] at h
    exact Location.noConfusion h

/-- C1 (amended): for every particle classified OutsideHigh or
OutsideLow, NoSlip reflection returns the frame-corrected full
bounce-back velocity (2·wallVelocity − vx, −vy, −vz); and whenever the
transverse excursion from the centre-line profile stays within
3·halfWidth (the documented sub-step-size precondition: the overshoot
past the crossed wall is at most the full channel width 2·halfWidth),
the returned position is classified Inside. -/
theorem reflect_noSlip_bounceBack (g : SineGeometry) (r v : Vec3) (dt : ℝ)
    (hbc : g.bc = BoundaryCond.noSlip)
    (hout : locate g r = Location.outsideHigh ∨ locate g r = Location.outsideLow) :
    (reflect g r v dt).2 = ⟨2 * g.wallVelocity - v.x, -v.y, -v.z⟩ ∧
    (|r.y - wallOffset g r.x| ≤ 3 * g.halfWidth →
      locate g (reflect g r v dt).1 = Location.inside) := by
  have hvel : reflectVel g r.x v = ⟨2 * g.wallVelocity - v.x, -v.y, -v.z⟩ := by
    simp only [reflectVel, hbc]
    ext <;> simp <;> ring
  rcases hout with hH | hL
  · have hgt := locate_outsideHigh_gt hH
    simp only [reflect, hH]
    refine ⟨hvel, ?_⟩
    intro hover
    have habs := abs_le.mp hover
    apply locate_inside_aux <;> simp <;> linarith [habs.2]
  · have hlt := locate_outsideLow_lt hL
    simp only [reflect, hL]
    refine ⟨hvel, ?_⟩
    intro hover
    have habs := abs_le.mp hover
    apply locate_inside_aux <;> simp <;> linarith [habs.1]

/-- Witness for C1: the spec's example scenario. halfWidth = 10,
amplitude = 2, wavenumber = 1/10, wallVelocity = 0, NoSlip; the particle
at (0, 10.5, 0) with velocity (0, −1, 0) is OutsideHigh, and reflect
returns velocity (0, 1, 0) with position (0, 9.5, 0), classified
Inside. -/
theorem reflect_noSlip_bounceBack_witness :
    locate ⟨10, 2, 1/10, 0, BoundaryCond.noSlip⟩ ⟨0, 21/2, 0⟩ = Location.outsideHigh ∧
    (reflect ⟨10, 2, 1/10, 0, BoundaryCond.noSlip⟩ ⟨0, 21/2, 0⟩ ⟨0, -1, 0⟩ (1/100)).2
      = ⟨0, 1, 0⟩ ∧
    (reflect ⟨10, 2, 1/10, 0, BoundaryCond.noSlip⟩ ⟨0, 21/2, 0⟩ ⟨0, -1, 0⟩ (1/100)).1
      = ⟨0, 19/2, 0⟩ ∧
    locate ⟨10, 2, 1/10, 0, BoundaryCond.noSlip⟩
      (reflect ⟨10, 2, 1/10, 0, BoundaryCond.noSlip⟩ ⟨0, 21/2, 0⟩ ⟨0, -1, 0⟩ (1/100)).1
      = Location.inside := by
  have hL : locate ⟨10, 2, 1/10, 0, BoundaryCond.noSlip⟩ ⟨0, 21/2, 0⟩
      = Location.outsideHigh := by
    unfold locate
    rw [if_pos]
    norm_num [wallOffset]
  have hmain := reflect_noSlip_bounceBack ⟨10, 2, 1/10, 0, BoundaryCond.noSlip⟩
    ⟨0, 21/2, 0⟩ ⟨0, -1, 0⟩ (1/100) rfl (Or.inl hL)
  refine ⟨hL, ?_, ?_, hmain.2 (by norm_num [wallOffset, abs_le])⟩
  · rw [hmain.1]
    ext <;> norm_num
  · simp only [reflect, hL]
    ext <;> norm_num [wallOffset]

/-- C1 counterexample: the claim without the sub-step precondition fails.
With halfWidth = 10, amplitude = 2, wavenumber = 1/10, a particle at
(0, 41, 0) is OutsideHigh, but its reflected position (0, −21, 0) lands
beyond the opposite wall and is classified OutsideLow, not Inside. -/
theorem reflect_noSlip_bounceBack_counterexample :
    locate ⟨10, 2, 1/10, 0, BoundaryCond.noSlip⟩ ⟨0, 41, 0⟩ = Location.outsideHigh ∧
    locate ⟨10, 2, 1/10, 0, BoundaryCond.noSlip⟩
      (reflect ⟨10, 2, 1/10, 0, BoundaryCond.noSlip⟩ ⟨0, 41, 0⟩ ⟨0, -1, 0⟩ 1).1
      ≠ Location.inside := by
  have hL : locate ⟨10, 2, 1/10, 0, BoundaryCond.noSlip⟩ ⟨0, 41, 0⟩
      = Location.outsideHigh := by
    unfold locate
    rw [if_pos]
    norm_num [wallOffset]
  refine ⟨hL, ?_⟩
  simp only [reflect, hL]
  unfold locate
  rw [if_neg (by norm_num [wallOffset]), if_pos (by norm_num [wallOffset])]
  exact Location.noConfusion

/-- C4: under Slip the velocity component tangential to the local wall
surface (in the wall frame) is preserved in magnitude and sign, the
component normal to the local tangent reverses, and the spanwise
component is unchanged. -/
theorem reflectVel_slip_tangential (g : SineGeometry) (x : ℝ) (v : Vec3)
    (hbc : g.bc = BoundaryCond.slip) :
    dotTangent (wallSlope g x) (wallFrame g (reflectVel g x v))
      = dotTangent (wallSlope g x) (wallFrame g v) ∧
    dotNormal (wallSlope g x) (wallFrame g (reflectVel g x v))
      = -dotNormal (wallSlope g x) (wallFrame g v) ∧
    (reflectVel g x v).z = v.z := by
  have hm : (1 + wallSlope g x * wallSlope g x) ≠ 0 :=
    ne_of_gt (by nlinarith [mul_self_nonneg (wallSlope g x)])
  refine ⟨?_, ?_, ?_⟩
  · simp only [reflectVel, hbc, wallFrame, dotTangent, dotNormal]
    ring
  · simp only [reflectVel, hbc, wallFrame, dotTangent, dotNormal]
    field_simp
    ring
  · simp only [reflectVel, hbc]

/-- Witness for C4: concrete slip geometry (halfWidth = 10, amplitude = 2,
wavenumber = 1/10) at x = 0 with velocity (3, −2, 1). -/
theorem reflectVel_slip_tangential_witness :
    dotTangent (wallSlope ⟨10, 2, 1/10, 0, BoundaryCond.slip⟩ 0)
        (wallFrame ⟨10, 2, 1/10, 0, BoundaryCond.slip⟩
          (reflectVel ⟨10, 2, 1/10, 0, BoundaryCond.slip⟩ 0 ⟨3, -2, 1⟩))
      = dotTangent (wallSlope ⟨10, 2, 1/10, 0, BoundaryCond.slip⟩ 0)
        (wallFrame ⟨10, 2, 1/10, 0, BoundaryCond.slip⟩ ⟨3, -2, 1⟩) ∧
    dotNormal (wallSlope ⟨10, 2, 1/10, 0, BoundaryCond.slip⟩ 0)
        (wallFrame ⟨10, 2, 1/10, 0, BoundaryCond.slip⟩
          (reflectVel ⟨10, 2, 1/10, 0, BoundaryCond.slip⟩ 0 ⟨3, -2, 1⟩))
      = -dotNormal (wallSlope ⟨10, 2, 1/10, 0, BoundaryCond.slip⟩ 0)
        (wallFrame ⟨10, 2, 1/10, 0, BoundaryCond.slip⟩ ⟨3, -2, 1⟩) ∧
    (reflectVel ⟨10, 2, 1/10, 0, BoundaryCond.slip⟩ 0 ⟨3, -2, 1⟩).z = 1 :=
  reflectVel_slip_tangential ⟨10, 2, 1/10, 0, BoundaryCond.slip⟩ 0 ⟨3, -2, 1⟩ rfl

/-- C9: for a stationary flat wall (amplitude = 0, wallVelocity = 0) the
Slip and NoSlip reflections produce the same reversal of the wall-normal
velocity component: both map the transverse component to its negation. -/
theorem reflectVel_flat_agree (g : SineGeometry) (x : ℝ) (v : Vec3)
    (hA : g.amplitude = 0) (hV : g.wallVelocity = 0) :
    (reflectVel {g with bc := BoundaryCond.slip} x v).y = -v.y ∧
    (reflectVel {g with bc := BoundaryCond.noSlip} x v).y = -v.y := by
  constructor
  · simp [reflectVel, wallSlope, hA, hV]
    ring
  · simp [reflectVel]

/-- Witness for C9: flat stationary wall (halfWidth = 10, amplitude = 0)
at x = 0 with velocity (3, −2, 1): both conditions send the transverse
component −2 to 2. -/
theorem reflectVel_flat_agree_witness :
    (reflectVel ⟨10, 0, 1/10, 0, BoundaryCond.slip⟩ 0 ⟨3, -2, 1⟩).y = -(-2) ∧
    (reflectVel ⟨10, 0, 1/10, 0, BoundaryCond.noSlip⟩ 0 ⟨3, -2, 1⟩).y = -(-2) :=
  reflectVel_flat_agree ⟨10, 0, 1/10, 0, BoundaryCond.noSlip⟩ 0 ⟨3, -2, 1⟩ rfl rfl

/-! ## Filler theorems: order-independent parallel sampling (C2) -/

lemma applyWrites_cons {α : Type} (w : Nat × α) (rest : List (Nat × α)) (store : Nat → α) :
    applyWrites (w :: rest) store
      = applyWrites rest (fun j => if j = w.1 then w.2 else store j) := rfl

lemma applyWrites_of_not_mem {α : Type} (ws : List (Nat × α)) (store : Nat → α) (j : Nat)
    (h : ∀ w ∈ ws, w.1 ≠ j) : applyWrites ws store j = store j := by
  induction ws generalizing store with
  | nil => rfl
  | cons w rest ih =>
    have hw : w.1 ≠ j := h w (List.mem_cons_self w rest)
    rw [applyWrites_cons, ih _ (fun w' hw' => h w' (List.mem_cons_of_mem w hw'))]
    simp [Ne.symm hw]

lemma applyWrites_of_mem {α : Type} (ws : List (Nat × α)) (store : Nat → α) (j : Nat) (v : α)
    (hex : ∃ w ∈ ws, w.1 = j) (hval : ∀ w ∈ ws, w.1 = j → w.2 = v) :
    applyWrites ws store j = v := by
  induction ws generalizing store with
  | nil => simp at hex
  | cons w rest ih =>
    by_cases hrest : ∃ w' ∈ rest, w'.1 = j
    · rw [applyWrites_cons]
      exact ih _ hrest (fun w' hw' h' => hval w' (List.mem_cons_of_mem w hw') h')
    · push_neg at hrest
      obtain ⟨w', hw', hkey⟩ := hex
      rcases List.mem_cons.mp hw' with rfl | hmem
      · rw [applyWrites_cons, applyWrites_of_not_mem _ _ _ hrest]
        simp [hkey, hval w' hw' hkey]
      · exact absurd hkey (hrest w' hmem)

lemma blocks_flatten (m b : Nat) :
    (List.range m).flatMap (fun blk => (List.range b).map (fun t => blk * b + t))
      = List.range (m * b) := by
  induction m with
  | zero => simp
  | succ m ih =>
    rw [List.range_succ, List.flatMap_append, ih, Nat.succ_mul, List.range_add]
    simp

lemma filter_range_of_le (N M : Nat) (h : N ≤ M) :
    (List.range M).filter (fun j => decide (j < N)) = List.range N := by
  obtain ⟨k, rfl⟩ := Nat.exists_eq_add_of_le h
  rw [List.range_add, List.filter_append]
  have h1 : (List.range N).filter (fun j => decide (j < N)) = List.range N :=
    List.filter_eq_self.mpr (fun a ha => by simp [List.mem_range.mp ha])
  have h2 : ((List.range k).map (N + ·)).filter (fun j => decide (j < N)) = [] := by
    apply List.filter_eq_nil_iff.mpr
    intro a ha
    obtain ⟨t, _, rfl⟩ := List.mem_map.mp ha
    simp
  rw [h1, h2, List.append_nil]

lemma gpuOrder_eq_range (b N : Nat) (hb : 1 ≤ b) : gpuOrder b N = List.range N := by
  unfold gpuOrder
  rw [blocks_flatten]
  apply filter_range_of_le
  have key : N ≤ b * ((N + b - 1) / b) := by
    have h2 := Nat.div_add_mod (N + b - 1) b
    have h3 : (N + b - 1) % b < b := Nat.mod_lt _ (by omega)
    omega
  exact le_of_le_of_eq key (Nat.mul_comm b _)

lemma runFill_char {α : Type} (order : List Nat) (N : Nat) (sample : Nat → α)
    (first_idx : Nat) (store : Nat → α) (j : Nat)
    (hperm : order.Perm (List.range N)) :
    runFill order sample first_idx store j
      = if first_idx ≤ j ∧ j < first_idx + N then sample (j - first_idx) else store j := by
  by_cases hj : first_idx ≤ j ∧ j < first_idx + N
  · rw [if_pos hj]
    apply applyWrites_of_mem
    · refine ⟨(first_idx + (j - first_idx), sample (j - first_idx)), ?_, by omega⟩
      exact List.mem_map.mpr ⟨j - first_idx,
        hperm.mem_iff.mpr (List.mem_range.mpr (by omega)), rfl⟩
    · intro w hw hkey
      obtain ⟨i, hi, rfl⟩ := List.mem_map.mp hw
      simp only at hkey ⊢
      have : i = j - first_idx := by omega
      rw [this]
  · rw [if_neg hj]
    apply applyWrites_of_not_mem
    intro w hw
    obtain ⟨i, hi, rfl⟩ := List.mem_map.mp hw
    have hiN : i < N := List.mem_range.mp (hperm.mem_iff.mp hi)
    simp only
    omega

/-- C2: for a fixed (randomSeed, timestep, side), the filled slots are
bit-identical across runs that differ only in the block-size grouping of
the parallel dispatch or in the execution order of the per-particle
tasks, and the state written for particle i is the pure hash of
(seed, timestep, side, i). -/
theorem fill_order_independent (seed timestep side first_idx N b1 b2 : Nat)
    (store : Nat → Nat) (ord : List Nat)
    (hb1 : 1 ≤ b1) (hb2 : 1 ≤ b2) (hord : ord.Perm (List.range N)) :
    runFill (gpuOrder b1 N) (streamHash seed timestep side) first_idx store
      = runFill (gpuOrder b2 N) (streamHash seed timestep side) first_idx store ∧
    runFill ord (streamHash seed timestep side) first_idx store
      = runFill (gpuOrder b1 N) (streamHash seed timestep side) first_idx store ∧
    ∀ i, i < N →
      runFill ord (streamHash seed timestep side) first_idx store (first_idx + i)
        = streamHash seed timestep side i := by
  have hperm1 : (gpuOrder b1 N).Perm (List.range N) := by
    rw [gpuOrder_eq_range b1 N hb1]
  have hperm2 : (gpuOrder b2 N).Perm (List.range N) := by
    rw [gpuOrder_eq_range b2 N hb2]
  refine ⟨?_, ?_, ?_⟩
  · funext j
    rw [runFill_char _ N _ _ _ _ hperm1, runFill_char _ N _ _ _ _ hperm2]
  · funext j
    rw [runFill_char _ N _ _ _ _ hord, runFill_char _ N _ _ _ _ hperm1]
  · intro i hi
    rw [runFill_char _ N _ _ _ _ hord,
      if_pos ⟨Nat.le_add_right _ _, by omega⟩]
    have : first_idx + i - first_idx = i := by omega
    rw [this]

/-- Witness for C2: three particles, block sizes 1 and 2, and the
scrambled task order [2, 0, 1], all writing from slot 5. -/
theorem fill_order_independent_witness :
    (runFill (gpuOrder 1 3) (streamHash 1 2 0) 5 (fun _ => 0)
      = runFill (gpuOrder 2 3) (streamHash 1 2 0) 5 (fun _ => 0) ∧
    runFill [2, 0, 1] (streamHash 1 2 0) 5 (fun _ => 0)
      = runFill (gpuOrder 1 3) (streamHash 1 2 0) 5 (fun _ => 0) ∧
    ∀ i, i < 3 →
      runFill [2, 0, 1] (streamHash 1 2 0) 5 (fun _ => 0) (5 + i)
        = streamHash 1 2 0 i) :=
  fill_order_independent 1 2 0 5 3 1 2 (fun _ => 0) [2, 0, 1]
    (by decide) (by decide) (by decide)

/-! ## Filler theorems: tag monotonicity (C5) -/

lemma runFirstTags_fst_le (t0 : Nat) (counts : List Nat) :
    ∀ p ∈ runFirstTags t0 counts, t0 ≤ p.1 := by
  induction counts generalizing t0 with
  | nil => simp [runFirstTags]
  | cons c cs ih =>
    intro p hp
    rcases List.mem_cons.mp hp with rfl | hmem
    · exact le_refl _
    · exact le_trans (Nat.le_add_right t0 c) (ih (t0 + c) p hmem)

lemma mem_runTags_le (t0 : Nat) (counts : List Nat) :
    ∀ x ∈ runTags t0 counts, t0 ≤ x := by
  induction counts generalizing t0 with
  | nil => simp [runTags, runFirstTags]
  | cons c cs ih =>
    intro x hx
    simp only [runTags, runFirstTags, List.flatMap_cons] at hx
    rcases List.mem_append.mp hx with h1 | h2
    · obtain ⟨i, _, rfl⟩ := List.mem_map.mp h1
      exact Nat.le_add_right t0 i
    · exact le_trans (Nat.le_add_right t0 c) (ih (t0 + c) x h2)

lemma runFirstTags_pairwise (t0 : Nat) (counts : List Nat)
    (hpos : ∀ c ∈ counts, 0 < c) :
    ((runFirstTags t0 counts).map Prod.fst).Pairwise (· < ·) := by
  induction counts generalizing t0 with
  | nil => simp [runFirstTags]
  | cons c cs ih =>
    simp only [runFirstTags, List.map_cons]
    refine List.pairwise_cons.mpr
      ⟨?_, ih (t0 + c) (fun c' hc' => hpos c' (List.mem_cons_of_mem c hc'))⟩
    intro a ha
    obtain ⟨p, hp, rfl⟩ := List.mem_map.mp ha
    have := runFirstTags_fst_le (t0 + c) cs p hp
    have hc : 0 < c := hpos c (List.mem_cons_self c cs)
    omega

lemma runTags_nodup (t0 : Nat) (counts : List Nat) : (runTags t0 counts).Nodup := by
  induction counts generalizing t0 with
  | nil => simp [runTags, runFirstTags]
  | cons c cs ih =>
    simp only [runTags, runFirstTags, List.flatMap_cons]
    apply List.Nodup.append
    · exact List.Nodup.map (fun a b hab => by omega) (List.nodup_range c)
    · exact ih (t0 + c)
    · intro x hx1 hx2
      obtain ⟨i, hi, rfl⟩ := List.mem_map.mp hx1
      have h2 := mem_runTags_le (t0 + c) cs _ hx2
      have : i < c := List.mem_range.mp hi
      omega

/-- C5 (amended): over a run of fill calls that each create at least one
particle, the firstNewTag values are strictly increasing (in particular
consecutive calls never collide); and regardless of the counts,
zero-count fills included, every tag ever assigned (firstNewTag + i
within each step) is distinct across the whole run. -/
theorem firstTags_increasing_tags_distinct (t0 : Nat) (counts : List Nat) :
    ((∀ c ∈ counts, 0 < c) →
      ((runFirstTags t0 counts).map Prod.fst).Pairwise (· < ·)) ∧
    (runTags t0 counts).Nodup :=
  ⟨fun hpos => runFirstTags_pairwise t0 counts hpos, runTags_nodup t0 counts⟩

/-- Witness for C5: a run of three fill calls with counts 2, 1, 3 from
counter 7: firstNewTags 7, 9, 10 strictly increase and the six tags are
distinct; a run with a zero-count step, counts [0, 3], still has all
tags distinct. -/
theorem firstTags_increasing_tags_distinct_witness :
    ((runFirstTags 7 [2, 1, 3]).map Prod.fst).Pairwise (· < ·) ∧
    (runTags 7 [2, 1, 3]).Nodup ∧
    (runTags 5 [0, 3]).Nodup :=
  ⟨(firstTags_increasing_tags_distinct 7 [2, 1, 3]).1 (by decide),
   (firstTags_increasing_tags_distinct 7 [2, 1, 3]).2,
   (firstTags_increasing_tags_distinct 5 [0, 3]).2⟩

/-- C5 counterexample: a fill call may create zero particles (the Poisson
draw can yield 0), and then the next call reuses the same firstNewTag:
with counter 5 and counts [0, 3] the two consecutive firstNewTag values
are both 5, so they collide and the sequence is not strictly
increasing. -/
theorem firstTags_collision_counterexample :
    ((runFirstTags 5 [0, 3]).map Prod.fst) = [5, 5] ∧
    ¬ ((runFirstTags 5 [0, 3]).map Prod.fst).Pairwise (· < ·) := by
  decide

/-! ## Filler theorems: count determinism (C6) -/

/-- C6: the per-side count is a nonnegative integer (a Nat) computed by a
deterministic draw from (randomSeed, timestep, side) alone: it does not
read the filler's mutable run state, so repeated calls with the same
seed, timestep and side reproduce the same count; the example
targetDensity = 5, regionVolume = 2 yields exactly 10 for every seed and
step; and the count does depend on the hashed draw (seeds 0 and 1 give
counts 1 and 0 at mean 1/2), so it is not a fixed rounding. -/
theorem stepCount_deterministic (seed timestep side : Nat) (d v : ℚ)
    (st1 st2 : FillerRunState) :
    stepCount seed st1 timestep side d v = stepCount seed st2 timestep side d v ∧
    stepCount seed st1 timestep side 5 2 = 10 ∧
    sampleCount 0 0 0 (1/2) = 1 ∧ sampleCount 1 0 0 (1/2) = 0 := by
  refine ⟨rfl, ?_, ?_, ?_⟩
  · unfold stepCount sampleCount
    norm_num
    rw [if_neg (not_lt.mpr (by positivity))]
    decide
  · norm_num [sampleCount, stepHash, streamHash]
  · norm_num [sampleCount, stepHash, streamHash]

/-! ## Filler theorems: capacity error and frame effect (C7, C8) -/

lemma drawFold_cons {π υ : Type} (samplePos : Nat → π) (sampleVel : Nat → υ)
    (first_tag first_idx i : Nat) (l : List Nat) (st : MPCDStore π υ) :
    drawFold samplePos sampleVel first_tag first_idx (i :: l) st
      = drawFold samplePos sampleVel first_tag first_idx l
          (writeOne st (first_idx + i) (samplePos i) (sampleVel i) (first_tag + i)) := rfl

lemma drawFold_untouched {π υ : Type} (samplePos : Nat → π) (sampleVel : Nat → υ)
    (first_tag first_idx : Nat) (l : List Nat) (st : MPCDStore π υ) (j : Nat)
    (h : ∀ i ∈ l, first_idx + i ≠ j) :
    (drawFold samplePos sampleVel first_tag first_idx l st).pos j = st.pos j ∧
    (drawFold samplePos sampleVel first_tag first_idx l st).vel j = st.vel j ∧
    (drawFold samplePos sampleVel first_tag first_idx l st).tag j = st.tag j := by
  induction l generalizing st with
  | nil => exact ⟨rfl, rfl, rfl⟩
  | cons i l ih =>
    have hi : first_idx + i ≠ j := h i (List.mem_cons_self i l)
    rw [drawFold_cons]
    obtain ⟨h1, h2, h3⟩ := ih _ (fun i' hi' => h i' (List.mem_cons_of_mem i hi'))
    refine ⟨?_, ?_, ?_⟩
    · rw [h1]; simp [writeOne, Ne.symm hi]
    · rw [h2]; simp [writeOne, Ne.symm hi]
    · rw [h3]; simp [writeOne, Ne.symm hi]

lemma drawFold_capacity {π υ : Type} (samplePos : Nat → π) (sampleVel : Nat → υ)
    (first_tag first_idx : Nat) (l : List Nat) (st : MPCDStore π υ) :
    (drawFold samplePos sampleVel first_tag first_idx l st).capacity = st.capacity := by
  induction l generalizing st with
  | nil => rfl
  | cons i l ih => rw [drawFold_cons, ih]; rfl

/-- C7: when the particle store cannot hold the required particles
(capacity below N + NVirtual), the fill call surfaces the fatal capacity
error and returns the store unchanged: no write has occurred, no partial
fill is left, and no retry happens. -/
theorem fill_capacity_error {π υ : Type} (samplePos : Nat → π) (sampleVel : Nat → υ)
    (N NVirtual N_fill first_tag : Nat) (st : MPCDStore π υ)
    (h : st.capacity < N + NVirtual) :
    fill samplePos sampleVel N NVirtual N_fill first_tag st
      = (st, some FillError.capacity) := by
  unfold fill
  rw [if_neg (by omega)]

/-- Witness for C7: a store of capacity 4 cannot hold N + NVirtual = 5
particles; fill returns it unchanged together with the capacity error. -/
theorem fill_capacity_error_witness :
    fill (fun i => i) (fun i => i) 2 3 4 7
      (⟨4, fun _ => 0, fun _ => 0, fun _ => 0⟩ : MPCDStore Nat Nat)
      = (⟨4, fun _ => 0, fun _ => 0, fun _ => 0⟩, some FillError.capacity) :=
  fill_capacity_error _ _ 2 3 4 7 _ (by decide)

/-- C8: one fill call touches only the granted destination range, the
N_fill slots from first_idx = N + NVirtual − N_fill: every position,
velocity and tag entry at an index below first_idx (or at or beyond
N + NVirtual) is unchanged, and the store is never resized. -/
theorem fill_frame {π υ : Type} (samplePos : Nat → π) (sampleVel : Nat → υ)
    (N NVirtual N_fill first_tag : Nat) (st : MPCDStore π υ) (j : Nat)
    (hfill : N_fill ≤ N + NVirtual)
    (hj : j < N + NVirtual - N_fill ∨ N + NVirtual ≤ j) :
    ((fill samplePos sampleVel N NVirtual N_fill first_tag st).1.pos j = st.pos j ∧
     (fill samplePos sampleVel N NVirtual N_fill first_tag st).1.vel j = st.vel j ∧
     (fill samplePos sampleVel N NVirtual N_fill first_tag st).1.tag j = st.tag j) ∧
    (fill samplePos sampleVel N NVirtual N_fill first_tag st).1.capacity = st.capacity := by
  unfold fill
  by_cases hcap : N + NVirtual ≤ st.capacity
  · rw [if_pos hcap]
    unfold drawParticles slit_draw_particles
    constructor
    · apply drawFold_untouched
      intro i hi
      have : i < N_fill := List.mem_range.mp hi
      omega
    · exact drawFold_capacity _ _ _ _ _ _
  · rw [if_neg hcap]
    exact ⟨⟨rfl, rfl, rfl⟩, rfl⟩

/-- Witness for C8: N = 2, NVirtual = 3, N_fill = 2, so first_idx = 3;
slot 1 below the granted range keeps its previous contents and the
capacity stays 10. -/
theorem fill_frame_witness :
    ((fill (fun i => i) (fun i => i) 2 3 2 7
        (⟨10, fun k => k, fun k => k, fun k => k⟩ : MPCDStore Nat Nat)).1.pos 1 = 1 ∧
     (fill (fun i => i) (fun i => i) 2 3 2 7
        (⟨10, fun k => k, fun k => k, fun k => k⟩ : MPCDStore Nat Nat)).1.vel 1 = 1 ∧
     (fill (fun i => i) (fun i => i) 2 3 2 7
        (⟨10, fun k => k, fun k => k, fun k => k⟩ : MPCDStore Nat Nat)).1.tag 1 = 1) ∧
    (fill (fun i => i) (fun i => i) 2 3 2 7
        (⟨10, fun k => k, fun k => k, fun k => k⟩ : MPCDStore Nat Nat)).1.capacity = 10 :=
  fill_frame (fun i => i) (fun i => i) 2 3 2 7 _ 1 (by decide) (Or.inl (by decide))

/-! ## Binding-layer theorems (C10) -/

/-- C10 counterexample: the exported SineGeometry constructor takes three
parameters (Scalar, Scalar, boundary), while the spec's §3 Data Model has
five fields (halfWidth, amplitude, wavenumber, wallVelocity,
boundaryCondition), so the construction parameters cannot map 1:1 to the
Data Model fields. -/
theorem binding_one_to_one_counterexample :
    sineGeometryInitParams.length = 3 ∧ dataModelFieldsSpec.length = 5 ∧
    sineGeometryInitParams.length ≠ dataModelFieldsSpec.length := by
  decide

/-- C10 (amended): the binding layer exposes exactly the Geometry
constructor with the three parameters (Scalar, Scalar, boundary) and the
accessors getH, getVelocity, getBoundaryCondition, plus the Filler
constructor; the constructor signature does not match the five §3 Data
Model fields one to one. -/
theorem binding_export_surface :
    sineGeometryMethods = ["getH", "getVelocity", "getBoundaryCondition"] ∧
    sineGeometryInitParams = [PyParam.scalar, PyParam.scalar, PyParam.boundary] ∧
    fillerInitParams = [PyParam.sysdata, PyParam.scalar, PyParam.uint,
      PyParam.variant, PyParam.uint, PyParam.geomPtr] ∧
    sineGeometryInitParams ≠ dataModelFieldsSpec := by
  refine ⟨rfl, rfl, rfl, by decide⟩
